import Mathlib

/-!
Verification development for the Chan-theory stock-analysis repository.

The repository ships the client-side code (an axios API client, a PWA
service worker, a React front end); the analysis engine itself runs behind
the `/analyze` HTTP endpoint and its code is not part of the repository
checkout.  The engine is therefore modelled here from the specification
(every such definition carries a doc comment starting with `Modelled from
the spec:`), while the client and service-worker behaviour is embedded
directly from the shipped sources.

Prices are modelled as rational numbers; timestamps as naturals.
-/

namespace Chan

/-- Modelled from the spec: a raw input bar
`{timestamp, open, high, low, close, volume}` (§3, §6).  The engine code
that consumes bars is not in the repository; the field `opn` stands for
the source field `open`, which is a reserved word in Lean. -/
structure Bar where
  timestamp : Nat
  opn : ℚ
  high : ℚ
  low : ℚ
  close : ℚ
  volume : ℚ
deriving DecidableEq

/-- Modelled from the spec: the configuration record with the recognized
options of §6, threaded immutably through every stage (§9). -/
structure Config where
  fractal_window : Nat
  min_fractal_gap : Nat
  min_stroke_bars : Nat
  min_stroke_pct : ℚ
  min_segment_strokes : Nat
  segment_break_threshold : ℚ
  min_zhongshu_strokes : Nat
  zhongshu_overlap_threshold : ℚ
  macd_fast : Nat
  macd_slow : Nat
  macd_signal : Nat
deriving DecidableEq

/-- Modelled from the spec: a canonical candle (§3) together with the
back-reference to the raw bars it absorbed (§4.1). -/
structure Candle where
  index : Nat
  timestamp : Nat
  opn : ℚ
  high : ℚ
  low : ℚ
  close : ℚ
  volume : ℚ
  absorbed : List Bar
deriving DecidableEq

/-- Modelled from the spec: timestamp monotonicity check of the
Normalizer (§4.1), relative to the last accepted bar's timestamp. -/
def tsOk : Option Nat → Nat → Bool
  | none, _ => true
  | some t, ts => decide (t < ts)

/-- Modelled from the spec: per-bar validation of the Normalizer (§4.1,
§7): a bar is malformed when `high < low` or its timestamp does not
strictly increase over the last accepted bar. -/
def barOk (lastTs : Option Nat) (b : Bar) : Bool :=
  decide (b.low ≤ b.high) && tsOk lastTs b.timestamp

/-- Modelled from the spec: the validation pass of the Normalizer (§4.1):
returns the accepted bars and the excluded (recorded) malformed bars. -/
def validateGo : Option Nat → List Bar → List Bar × List Bar
  | _, [] => ([], [])
  | lastTs, b :: rest =>
    if barOk lastTs b then
      (b :: (validateGo (some b.timestamp) rest).1, (validateGo (some b.timestamp) rest).2)
    else
      ((validateGo lastTs rest).1, b :: (validateGo lastTs rest).2)

/-- Modelled from the spec: validation entry point of the Normalizer. -/
def validateBars (bars : List Bar) : List Bar × List Bar :=
  validateGo none bars

/-- Modelled from the spec: the timestamp state of the validation walk
(§4.1) — the timestamp of the last accepted bar after processing a
prefix, against which the next bar's monotonicity is checked. -/
def walkTs (lastTs : Option Nat) : List Bar → Option Nat
  | [] => lastTs
  | b :: rest =>
    if barOk lastTs b then walkTs (some b.timestamp) rest else walkTs lastTs rest

/-- Modelled from the spec: a fresh canonical candle absorbing exactly one
raw bar (§4.1); the index is assigned later by `reindex`. -/
def barCandle (b : Bar) : Candle :=
  ⟨0, b.timestamp, b.opn, b.high, b.low, b.close, b.volume, [b]⟩

/-- Modelled from the spec: the inclusion relation (§4.1, glossary): one
range fully contained in the other. -/
def inclusion (c : Candle) (b : Bar) : Bool :=
  decide ((b.high ≤ c.high ∧ c.low ≤ b.low) ∨ (c.high ≤ b.high ∧ b.low ≤ c.low))

/-- Modelled from the spec: inclusion merge of a bar into the preceding
candle (§4.1): in an uptrend the merged extremes take the higher high and
higher low; in a downtrend the lower low and lower high. -/
def mergeCandle (up : Bool) (c : Candle) (b : Bar) : Candle :=
  if up then
    { c with high := max c.high b.high, low := max c.low b.low,
             close := b.close, volume := c.volume + b.volume,
             absorbed := c.absorbed ++ [b] }
  else
    { c with high := min c.high b.high, low := min c.low b.low,
             close := b.close, volume := c.volume + b.volume,
             absorbed := c.absorbed ++ [b] }

/-- Modelled from the spec: prevailing local trend direction before
candle `c` (§4.1), read off the candle immediately preceding it (given
in reverse order): up when the earlier high does not exceed `c`'s. -/
def trendUp (c : Candle) : List Candle → Bool
  | [] => true
  | p :: _ => decide (p.high ≤ c.high)

/-- Modelled from the spec: the inclusion-merging scan of the Normalizer
(§4.1).  The accumulator holds the canonical candles in reverse order. -/
def mergeGo : List Candle → List Bar → List Candle
  | acc, [] => acc.reverse
  | [], b :: rest => mergeGo [barCandle b] rest
  | c :: earlier, b :: rest =>
    if inclusion c b then
      mergeGo (mergeCandle (trendUp c earlier) c b :: earlier) rest
    else
      mergeGo (barCandle b :: c :: earlier) rest

/-- Modelled from the spec: assign consecutive indices to the canonical
candles (§3: integer indices are the stable references downstream). -/
def reindexGo (i : Nat) : List Candle → List Candle
  | [] => []
  | c :: rest => { c with index := i } :: reindexGo (i + 1) rest

/-- Modelled from the spec: the Normalizer's output — canonical candles
plus the recorded excluded bars (§4.1, §7). -/
structure NormalizeResult where
  candles : List Candle
  excluded : List Bar
deriving DecidableEq

/-- Modelled from the spec: the Normalizer (§4.1): validate, merge
inclusions, reindex; malformed bars are excluded and recorded, the run
continues on the remaining valid bars. -/
def normalize (bars : List Bar) : NormalizeResult :=
  ⟨reindexGo 0 (mergeGo [] (validateBars bars).1), (validateBars bars).2⟩

/-- Modelled from the spec: fractal kinds (§3). -/
inductive FractalKind
  | top
  | bottom
deriving DecidableEq

/-- Modelled from the spec: a Fractal `{index, kind, price}` (§3), the
index pointing into the canonical candles. -/
structure Fractal where
  index : Nat
  kind : FractalKind
  price : ℚ
deriving DecidableEq

/-- High of the candle at position `i`, `0` out of range. -/
def highAt (cs : List Candle) (i : Nat) : ℚ :=
  (cs[i]?.map Candle.high).getD 0

/-- Low of the candle at position `i`, `0` out of range. -/
def lowAt (cs : List Candle) (i : Nat) : ℚ :=
  (cs[i]?.map Candle.low).getD 0

/-- Modelled from the spec: top-fractal test (§4.2): the high at `i`
strictly exceeds every neighbour's high within the window radius `r`. -/
def isTopAt (cs : List Candle) (r i : Nat) : Bool :=
  (List.range r).all fun o =>
    decide (highAt cs (i - (o + 1)) < highAt cs i ∧ highAt cs (i + (o + 1)) < highAt cs i)

/-- Modelled from the spec: bottom-fractal test (§4.2): the low at `i` is
strictly below every neighbour's low within the window radius `r`. -/
def isBottomAt (cs : List Candle) (r i : Nat) : Bool :=
  (List.range r).all fun o =>
    decide (lowAt cs i < lowAt cs (i - (o + 1)) ∧ lowAt cs i < lowAt cs (i + (o + 1)))

/-- Modelled from the spec: window radius `(fractal_window − 1)/2` (§4.2). -/
def windowRadius (cfg : Config) : Nat :=
  (cfg.fractal_window - 1) / 2

/-- Modelled from the spec: raw fractal scan (§4.2): a time-ordered list
of the interior candles that pass the strict-inequality window test;
edge candles (without a full window) never qualify. -/
def rawFractals (cfg : Config) (cs : List Candle) : List Fractal :=
  (List.range cs.length).filterMap fun i =>
    if 1 ≤ windowRadius cfg ∧ windowRadius cfg ≤ i ∧ i + windowRadius cfg < cs.length then
      if isTopAt cs (windowRadius cfg) i then some ⟨i, .top, highAt cs i⟩
      else if isBottomAt cs (windowRadius cfg) i then some ⟨i, .bottom, lowAt cs i⟩
      else none
    else none

/-- Modelled from the spec: `f` is strictly more extreme than `g` of the
same kind (§4.2, §4.3): higher high for tops, lower low for bottoms.
A tie is never "more extreme", so the earlier fractal is retained. -/
def moreExtreme (f g : Fractal) : Bool :=
  match f.kind with
  | .top => decide (g.price < f.price)
  | .bottom => decide (f.price < g.price)

/-- Modelled from the spec: minimum-gap filtering step (§4.2): a fractal
within `min_fractal_gap` candles of the immediately preceding accepted
fractal of the same kind keeps only the more extreme of the two. -/
def gapInsert (cfg : Config) (acc : List Fractal) (f : Fractal) : List Fractal :=
  match (acc.filter fun g => decide (g.kind = f.kind)).getLast? with
  | none => acc ++ [f]
  | some g =>
    if f.index - g.index ≤ cfg.min_fractal_gap then
      if moreExtreme f g then acc.erase g ++ [f] else acc
    else acc ++ [f]

/-- Modelled from the spec: the FractalDetector (§4.2): raw window scan
followed by the minimum-gap filter. -/
def detectFractals (cfg : Config) (cs : List Candle) : List Fractal :=
  (rawFractals cfg cs).foldl (gapInsert cfg) []

/-- Modelled from the spec: stroke direction (§3). -/
inductive Direction
  | up
  | down
deriving DecidableEq

/-- Modelled from the spec: a Stroke (§3): start/end fractals, direction,
amplitude `|endPrice − startPrice| / startPrice`, and bar span. -/
structure Stroke where
  startFractal : Fractal
  endFractal : Fractal
  direction : Direction
  amplitude : ℚ
  barSpan : Nat
deriving DecidableEq

/-- Modelled from the spec: the StrokeBuilder walk (§4.3): alternation of
kind is enforced by keeping only the more extreme of two consecutive
same-kind fractals; a candidate pair `(a, b)` becomes a stroke iff
`b.index − a.index ≥ min_stroke_bars` and
`|b.price − a.price| / a.price ≥ min_stroke_pct` (inclusive thresholds),
otherwise `b` is dropped and the walk retries from `a`. -/
def buildGo (cfg : Config) : Fractal → List Fractal → List Stroke
  | _, [] => []
  | a, b :: rest =>
    if b.kind = a.kind then
      if moreExtreme b a then buildGo cfg b rest else buildGo cfg a rest
    else
      if cfg.min_stroke_bars ≤ b.index - a.index ∧
          cfg.min_stroke_pct ≤ |b.price - a.price| / a.price then
        ⟨a, b, if a.price < b.price then .up else .down,
          |b.price - a.price| / a.price, b.index - a.index⟩ :: buildGo cfg b rest
      else buildGo cfg a rest

/-- Modelled from the spec: the StrokeBuilder (§4.3). -/
def buildStrokes (cfg : Config) : List Fractal → List Stroke
  | [] => []
  | f :: rest => buildGo cfg f rest

/-- Modelled from the spec: segment status (§3, §4.4). -/
inductive SegStatus
  | provisional
  | confirmed
deriving DecidableEq

/-- Modelled from the spec: a Segment (§3): an ordered non-empty run of
strokes with a net direction and a provisional/confirmed status. -/
structure Segment where
  strokes : List Stroke
  direction : Direction
  status : SegStatus
deriving DecidableEq

/-- Smallest element of a price list (`0` on the empty list). -/
def listMin : List ℚ → ℚ
  | [] => 0
  | x :: xs => xs.foldl min x

/-- Largest element of a price list (`0` on the empty list). -/
def listMax : List ℚ → ℚ
  | [] => 0
  | x :: xs => xs.foldl max x

/-- Modelled from the spec: total price range swept by a run of strokes
(§4.4), measured over their fractal endpoints. -/
def segRange (cur : List Stroke) : ℚ :=
  listMax (cur.flatMap fun s => [s.startFractal.price, s.endFractal.price]) -
    listMin (cur.flatMap fun s => [s.startFractal.price, s.endFractal.price])

/-- Modelled from the spec: close the active segment (§4.4): confirmed
iff it holds at least `min_segment_strokes` strokes, else provisional. -/
def closeSegment (cfg : Config) (cur : List Stroke) (d : Direction) : Segment :=
  ⟨cur, d, if cfg.min_segment_strokes ≤ cur.length then .confirmed else .provisional⟩

/-- Modelled from the spec: the SegmentBuilder accumulation (§4.4): a
reversal stroke whose retracement exceeds `segment_break_threshold`
relative to the active segment's total range terminates the segment and
starts a new provisional one; otherwise the stroke is accumulated. -/
def segGo (cfg : Config) : List Stroke → Direction → List Stroke → List Segment
  | cur, d, [] => [closeSegment cfg cur d]
  | cur, d, s :: rest =>
    if s.direction = d then segGo cfg (cur ++ [s]) d rest
    else
      if 0 < segRange cur ∧
          cfg.segment_break_threshold * segRange cur <
            |s.endFractal.price - s.startFractal.price| then
        closeSegment cfg cur d :: segGo cfg [s] s.direction rest
      else segGo cfg (cur ++ [s]) d rest

/-- Modelled from the spec: the SegmentBuilder (§4.4). -/
def buildSegments (cfg : Config) : List Stroke → List Segment
  | [] => []
  | s :: rest => segGo cfg [s] s.direction rest

/-- Modelled from the spec: pivot lifecycle states (§3, §4.5). -/
inductive PivotStatus
  | forming
  | extended
  | broken
deriving DecidableEq

/-- Modelled from the spec: a Pivot (zhongshu, §3): overlap bounds,
member legs, lifecycle status, and the breakout direction set only when
broken. -/
structure Pivot where
  upper : ℚ
  lower : ℚ
  memberLegs : List Stroke
  status : PivotStatus
  breakoutDirection : Option Direction
deriving DecidableEq

/-- Higher fractal endpoint of a leg. -/
def legHigh (s : Stroke) : ℚ := max s.startFractal.price s.endFractal.price

/-- Lower fractal endpoint of a leg. -/
def legLow (s : Stroke) : ℚ := min s.startFractal.price s.endFractal.price

/-- Modelled from the spec: `upper = min(highs)` over a window (§4.5). -/
def windowUpper (w : List Stroke) : ℚ := listMin (w.map legHigh)

/-- Modelled from the spec: `lower = max(lows)` over a window (§4.5). -/
def windowLower (w : List Stroke) : ℚ := listMax (w.map legLow)

/-- Modelled from the spec: pivot formation over a window of
`min_zhongshu_strokes` consecutive legs (§4.5): a candidate is valid iff
`upper > lower` (non-empty overlap); it starts in state `forming`. -/
def formWindow (k : Nat) (legs : List Stroke) : Option Pivot :=
  if (legs.take k).length = k ∧ 1 ≤ k then
    if windowLower (legs.take k) < windowUpper (legs.take k) then
      some ⟨windowUpper (legs.take k), windowLower (legs.take k), legs.take k, .forming, none⟩
    else none
  else none

/-- Modelled from the spec: one transition of the pivot state machine
(§4.5): a leg entirely beyond `upper + threshold` or below
`lower − threshold` breaks the pivot and sets the breakout direction;
any other leg extends the pivot; a broken pivot is terminal and its
member legs are frozen. -/
def pivotStep (θ : ℚ) (p : Pivot) (s : Stroke) : Pivot :=
  if p.status = .broken then p
  else if p.upper + θ < legLow s then
    { p with status := .broken, breakoutDirection := some .up }
  else if legHigh s < p.lower - θ then
    { p with status := .broken, breakoutDirection := some .down }
  else
    { p with status := .extended, memberLegs := p.memberLegs ++ [s] }

/-- Modelled from the spec: feed legs to an active pivot until it breaks
(§4.5); the breaking leg is handed back so a new pivot may begin forming
immediately after the break. -/
def extendLoop (θ : ℚ) : Pivot → List Stroke → Pivot × List Stroke
  | p, [] => (p, [])
  | p, s :: rest =>
    if (pivotStep θ p s).status = .broken then (pivotStep θ p s, s :: rest)
    else extendLoop θ (pivotStep θ p s) rest

/-- Modelled from the spec: the PivotDetector scan (§4.5), fuelled by the
number of legs: slide until a window forms a valid pivot, extend it until
it breaks, then resume scanning from the breaking leg.  Member legs of
distinct pivots are not double-counted: each pivot consumes its window
and extension legs before scanning resumes. -/
def detectGo (cfg : Config) : Nat → List Stroke → List Pivot
  | 0, _ => []
  | Nat.succ _, [] => []
  | Nat.succ fuel, s :: rest =>
    match formWindow cfg.min_zhongshu_strokes (s :: rest) with
    | some p =>
      (extendLoop cfg.zhongshu_overlap_threshold p
          (List.drop cfg.min_zhongshu_strokes (s :: rest))).1 ::
        detectGo cfg fuel
          (extendLoop cfg.zhongshu_overlap_threshold p
            (List.drop cfg.min_zhongshu_strokes (s :: rest))).2
    | none => detectGo cfg fuel rest

/-- Modelled from the spec: the PivotDetector (§4.5). -/
def detectPivots (cfg : Config) (legs : List Stroke) : List Pivot :=
  detectGo cfg legs.length legs

/-- Modelled from the spec: a DivergenceSignal (§3). -/
structure DivergenceSignal where
  location : Nat
  kind : FractalKind
  referenceLegA : Stroke
  referenceLegB : Stroke
  momentumDeltaSign : Int
deriving DecidableEq

/-- Modelled from the spec: exponential moving average recursion used by
MACD (§4.6), with multiplier `2/(n+1)`, seeded by the first value. -/
def emaGo (α : ℚ) : ℚ → List ℚ → List ℚ
  | _, [] => []
  | prev, x :: xs => (α * x + (1 - α) * prev) :: emaGo α (α * x + (1 - α) * prev) xs

/-- Modelled from the spec: `n`-period EMA of a series (§4.6). -/
def ema (n : Nat) : List ℚ → List ℚ
  | [] => []
  | x :: xs => x :: emaGo (2 / (n + 1 : ℚ)) x xs

/-- Modelled from the spec: the MACD histogram (§4.6): fast EMA minus
slow EMA, minus the signal-line EMA of that difference. -/
def macdHistogram (cfg : Config) (closes : List ℚ) : List ℚ :=
  List.zipWith (fun a b => a - b)
    (List.zipWith (fun a b => a - b) (ema cfg.macd_fast closes) (ema cfg.macd_slow closes))
    (ema cfg.macd_signal
      (List.zipWith (fun a b => a - b) (ema cfg.macd_fast closes) (ema cfg.macd_slow closes)))

/-- Modelled from the spec: cumulative signed area of the MACD histogram
over a leg's candle span (§4.6). -/
def momentum (hist : List ℚ) (s : Stroke) : ℚ :=
  ((hist.drop s.startFractal.index).take
    (s.endFractal.index + 1 - s.startFractal.index)).sum

/-- Modelled from the spec: the DivergenceAnalyzer (§4.6): compares two
same-direction legs separated by a pivot member leg; a new price extreme
with a weaker momentum measure flags top (up-legs) or bottom (down-legs)
divergence; nothing is emitted without MACD warm-up or when legs are not
comparable. -/
def analyzeDivergence (cfg : Config) (candles : List Candle)
    (strokes : List Stroke) (pivots : List Pivot) : List DivergenceSignal :=
  if candles.length < cfg.macd_slow + cfg.macd_signal then []
  else
    (List.range strokes.length).filterMap fun i =>
      match strokes[i]?, strokes[i + 1]?, strokes[i + 2]? with
      | some a, some m, some b =>
        if a.direction = b.direction ∧ pivots.any (fun p => p.memberLegs.contains m) then
          if a.direction = .up ∧ a.endFractal.price < b.endFractal.price ∧
              momentum (macdHistogram cfg (candles.map Candle.close)) b <
                momentum (macdHistogram cfg (candles.map Candle.close)) a then
            some ⟨b.endFractal.index, .top, a, b, -1⟩
          else if a.direction = .down ∧ b.endFractal.price < a.endFractal.price ∧
              momentum (macdHistogram cfg (candles.map Candle.close)) a <
                momentum (macdHistogram cfg (candles.map Candle.close)) b then
            some ⟨b.endFractal.index, .bottom, a, b, 1⟩
          else none
        else none
      | _, _, _ => none

/-- Modelled from the spec: the per-granularity `AnalysisResult` (§3,
§6): the structural lists plus the recorded excluded bars. -/
structure AnalysisResult where
  candles : List Candle
  fractals : List Fractal
  strokes : List Stroke
  segments : List Segment
  pivots : List Pivot
  signals : List DivergenceSignal
  excluded : List Bar
deriving DecidableEq

/-- Modelled from the spec: stages 2–6 run on the Normalizer's output
(§2): every downstream structure is a function of the canonical candles
alone. -/
def stagesFrom (cfg : Config) (nr : NormalizeResult) : AnalysisResult :=
  ⟨nr.candles,
   detectFractals cfg nr.candles,
   buildStrokes cfg (detectFractals cfg nr.candles),
   buildSegments cfg (buildStrokes cfg (detectFractals cfg nr.candles)),
   detectPivots cfg (buildStrokes cfg (detectFractals cfg nr.candles)),
   analyzeDivergence cfg nr.candles
     (buildStrokes cfg (detectFractals cfg nr.candles))
     (detectPivots cfg (buildStrokes cfg (detectFractals cfg nr.candles))),
   nr.excluded⟩

/-- Modelled from the spec: the deterministic single-granularity pipeline
(§2, §5): Normalizer followed by stages 2–6. -/
def runPipeline (bars : List Bar) (cfg : Config) : AnalysisResult :=
  stagesFrom cfg (normalize bars)

/-- Modelled from the spec: per-category hit rates of the
AccuracyEvaluator (§4.8); an empty category trivially scores 100. -/
def hitRate (hits total : Nat) : ℚ :=
  if total = 0 then 100 else (hits : ℚ) * 100 / total

/-- Modelled from the spec: a fractal call held up iff the full series
reproduces its index and kind (§4.8). -/
def fractalHit (full : List Fractal) (f : Fractal) : Bool :=
  full.any fun g => decide (g.index = f.index ∧ g.kind = f.kind)

/-- Modelled from the spec: a stroke call held up iff the full series
reproduces its endpoints and direction (§4.8). -/
def strokeHit (full : List Stroke) (s : Stroke) : Bool :=
  full.any fun t => decide (t.startFractal.index = s.startFractal.index ∧
    t.endFractal.index = s.endFractal.index ∧ t.direction = s.direction)

/-- Modelled from the spec: a pivot call held up iff the full series
reproduces its bounds and breakout direction (§4.8). -/
def pivotHit (full : List Pivot) (p : Pivot) : Bool :=
  full.any fun q => decide (q.upper = p.upper ∧ q.lower = p.lower ∧
    q.breakoutDirection = p.breakoutDirection)

/-- Modelled from the spec: a divergence call held up iff the full series
reproduces its location and kind (§4.8). -/
def divergenceHit (full : List DivergenceSignal) (d : DivergenceSignal) : Bool :=
  full.any fun e => decide (e.location = d.location ∧ e.kind = d.kind)

/-- Modelled from the spec: the AccuracyReport of per-category hit rates
(§4.8). -/
structure AccuracyReport where
  fractalRate : ℚ
  strokeRate : ℚ
  pivotRate : ℚ
  divergenceRate : ℚ
deriving DecidableEq

/-- Modelled from the spec: compare the truncated run's structural calls
against the full run (§4.8). -/
def evalReports (trunc full : AnalysisResult) : AccuracyReport :=
  ⟨hitRate (trunc.fractals.countP (fractalHit full.fractals)) trunc.fractals.length,
   hitRate (trunc.strokes.countP (strokeHit full.strokes)) trunc.strokes.length,
   hitRate (trunc.pivots.countP (pivotHit full.pivots)) trunc.pivots.length,
   hitRate (trunc.signals.countP (divergenceHit full.signals)) trunc.signals.length⟩

/-- Modelled from the spec: the AccuracyEvaluator (§4.8): re-run the
pipeline on the series truncated at `validationDate` and compare each
structural call against the full-series run. -/
def evaluate (bars : List Bar) (cfg : Config) (validationDate : Nat) : AccuracyReport :=
  evalReports
    (runPipeline (bars.filter fun b => decide (b.timestamp ≤ validationDate)) cfg)
    (runPipeline bars cfg)

end Chan

namespace Client

/-- Outcome of the axios response interceptor in `src/api.ts`: the
promise either resolves with the response or rejects with the error
(which carries `error.response?.status`). -/
inductive InterceptOutcome
  | resolved (status : Nat) (body : String)
  | rejected (responseStatus : Option Nat)
deriving DecidableEq

/-- Browser-visible state touched by the interceptor: the keys present in
`localStorage` and whether `window.location.reload()` was called. -/
structure BrowserState where
  storage : List String
  reloaded : Bool
deriving DecidableEq

/-- `localStorage.removeItem(key)`: the key is no longer present. -/
def removeItem (storage : List String) (key : String) : List String :=
  storage.filter fun k => decide (k ≠ key)

/-- An axios error as seen by the interceptor: `error.response?.status`
is `none` for a network failure and `some s` for an HTTP error status. -/
structure AxiosError where
  responseStatus : Option Nat
deriving DecidableEq

/-- The error arm of `api.interceptors.response.use` in `src/api.ts`
lines 27–34: on `error.response?.status === 401` it removes `user` from
`localStorage` and reloads the page; in every case it returns
`Promise.reject(error)`. -/
def onError (e : AxiosError) (st : BrowserState) : InterceptOutcome × BrowserState :=
  (.rejected e.responseStatus,
   if e.responseStatus = some 401 then ⟨removeItem st.storage "user", true⟩ else st)

/-- The success arm of `api.interceptors.response.use` in `src/api.ts`
lines 24–26: the response is returned unchanged. -/
def onSuccess (s : Nat) (body : String) (st : BrowserState) : InterceptOutcome × BrowserState :=
  (.resolved s body, st)

/-- An HTTP-level event observed by the axios client: a received response
with a status and body, or a network failure with no response. -/
inductive HttpEvent
  | response (status : Nat) (body : String)
  | networkFailure
deriving DecidableEq

/-- Axios' default `validateStatus`: a received status is a success iff
it lies in `[200, 300)`. -/
def validateHttpStatus (s : Nat) : Bool :=
  decide (200 ≤ s ∧ s < 300)

/-- Dispatch of a received HTTP event through the response interceptor of
`src/api.ts`: a 2xx response reaches the success arm; any other received
status reaches the error arm with `error.response.status` set to it; a
network failure reaches the error arm with no response status. -/
def handleHttpEvent : HttpEvent → BrowserState → InterceptOutcome × BrowserState
  | .response s body, st =>
    if validateHttpStatus s then onSuccess s body st else onError ⟨some s⟩ st
  | .networkFailure, st => onError ⟨none⟩ st

end Client

namespace SW

/-- A service-worker request (`event.request`): method and URL. -/
structure SWRequest where
  method : String
  url : String
deriving DecidableEq

/-- A service-worker response: status, `response.type`, and body. -/
structure SWResponse where
  status : Nat
  type : String
  body : String
deriving DecidableEq

/-- One named cache: the request/response pairs it stores. -/
abbrev SWCache := List (SWRequest × SWResponse)

/-- `caches.match(request)` over a single cache: the first stored
response for the request. -/
def cacheMatch (cache : SWCache) (r : SWRequest) : Option SWResponse :=
  (cache.find? fun e => decide (e.1 = r)).map Prod.snd

/-- `cache.put(request, response)`. -/
def cachePut (cache : SWCache) (r : SWRequest) (resp : SWResponse) : SWCache :=
  cache ++ [(r, resp)]

/-- Result of `fetch(event.request)`: a response or a rejection. -/
inductive NetworkResult
  | ok (resp : SWResponse)
  | failed
deriving DecidableEq

/-- How the fetch handler settles a request: untouched browser default
(the handler returned before `event.respondWith`), a response, or a
propagated failure. -/
inductive FetchHandling
  | browserDefault
  | respond (resp : SWResponse)
  | failRequest
deriving DecidableEq

/-- Substring test on character lists, scanning every start position. -/
def listContainsSub (needle : List Char) : List Char → Bool
  | [] => needle.isEmpty
  | c :: rest => needle.isPrefixOf (c :: rest) || listContainsSub needle rest

/-- `url.includes(pat)`. -/
def strContains (s pat : String) : Bool :=
  listContainsSub pat.toList s.toList

/-- The fallback built by `sw.js` lines 92–99 when an API fetch fails:
a JSON error body with HTTP status 503; a constructed `Response` has
type `default`. -/
def apiErrorResponse : SWResponse :=
  ⟨503, "default", "\x7b\"error\":\"网络连接失败，请检查网络设置\"\x7d"⟩

/-- The `fetch` event listener of `sw.js` lines 55–105: non-GET requests
are returned to the browser untouched; a cached response is served when
one matches; otherwise the network is consulted, and a response is added
to the cache only when its status is 200 and its type is `basic`; a
failed fetch for a URL containing `/api/` yields the 503 JSON fallback,
any other failed fetch propagates the error. -/
def handleFetch (req : SWRequest) (cache : SWCache) (net : NetworkResult) :
    FetchHandling × SWCache :=
  if req.method ≠ "GET" then (.browserDefault, cache)
  else
    match cacheMatch cache req with
    | some resp => (.respond resp, cache)
    | none =>
      match net with
      | .ok resp =>
        if resp.status = 200 ∧ resp.type = "basic" then
          (.respond resp, cachePut cache req resp)
        else (.respond resp, cache)
      | .failed =>
        if strContains req.url "/api/" then (.respond apiErrorResponse, cache)
        else (.failRequest, cache)

/-- The cache name of `sw.js` line 10. -/
def CACHE_NAME : String := "chan-analysis-v2"

/-- The browser's named-cache store: name/content pairs. -/
abbrev CacheStore := List (String × SWCache)

/-- `caches.delete(name)`: every cache with that name is removed. -/
def deleteCache (st : CacheStore) (name : String) : CacheStore :=
  st.filter fun e => decide (e.1 ≠ name)

/-- The `activate` event listener of `sw.js` lines 37–52: for every
existing cache name, delete the cache unless it is `CACHE_NAME`. -/
def activateHandler (st : CacheStore) : CacheStore :=
  (st.map Prod.fst).foldl (fun acc name => if name ≠ CACHE_NAME then deleteCache acc name else acc) st

end SW

namespace Wit
open Chan

/-- The spec's default configuration (§4.2–§4.6): window 3, gap 2, stroke
minimums 3 bars and 0.002, segment minimums 3 and 0.005, zhongshu
minimums 3 and 0.001, MACD 12/26/9. -/
def cfgW : Config := ⟨3, 2, 3, 1/500, 3, 1/200, 3, 1/1000, 12, 26, 9⟩

/-- A candle for the concrete fractal scenario: given high and low, with
open/close inside the range. -/
def mkCandle (i ts : Nat) (h l : ℚ) : Candle := ⟨i, ts, l, h, l, h, 1, []⟩

/-- The 7-candle series of the spec's concrete scenario (§8): highs
`[10,12,15,11,9,13,10]` and consistent lows `[9,11,14,10,8,12,9]`
(each low below its high; index 4 the strict local low minimum). -/
def candles7 : List Candle :=
  [mkCandle 0 0 10 9, mkCandle 1 1 12 11, mkCandle 2 2 15 14, mkCandle 3 3 11 10,
   mkCandle 4 4 9 8, mkCandle 5 5 13 12, mkCandle 6 6 10 9]

/-- An accepted top fractal. -/
def gW : Fractal := ⟨2, .top, 15⟩

/-- A later top fractal with exactly the same price, within the minimum
gap of `gW`. -/
def fW : Fractal := ⟨4, .top, 15⟩

/-- Start fractal of an exactly-at-threshold stroke candidate. -/
def aW : Fractal := ⟨0, .bottom, 1⟩

/-- End fractal of an exactly-at-threshold stroke candidate: span 3 bars,
amplitude exactly `1/500 = 0.002`. -/
def bW : Fractal := ⟨3, .top, 501/500⟩

/-- First leg of the spec's pivot scenario (§8): range `[100,110]`. -/
def s1 : Stroke := ⟨⟨0, .bottom, 100⟩, ⟨1, .top, 110⟩, .up, 0, 1⟩

/-- Second leg: range `[95,108]`. -/
def s2 : Stroke := ⟨⟨1, .top, 108⟩, ⟨2, .bottom, 95⟩, .down, 0, 1⟩

/-- Third leg: range `[101,112]`. -/
def s3 : Stroke := ⟨⟨2, .bottom, 101⟩, ⟨3, .top, 112⟩, .up, 0, 1⟩

/-- The three legs of the spec's pivot scenario. -/
def strokes3 : List Stroke := [s1, s2, s3]

/-- The pivot the detector forms on `strokes3`: `upper = 108`,
`lower = 101`. -/
def pivW : Pivot := ⟨108, 101, strokes3, .forming, none⟩

/-- A malformed bar: `high = 1 < 3 = low`. -/
def badBar : Bar := ⟨2, 1, 1, 3, 1, 1⟩

/-- A series with the malformed bar inserted mid-series. -/
def barsW6 : List Bar := [⟨1, 1, 2, 1, 2, 1⟩, badBar, ⟨3, 1, 2, 1, 2, 1⟩]

/-- A timestamp-malformed bar: its timestamp 4 does not increase over
the last accepted bar's timestamp 5. -/
def badTsBar : Bar := ⟨4, 1, 2, 1, 2, 1⟩

/-- A series whose middle bar regresses in timestamp. -/
def barsW7 : List Bar := [⟨5, 1, 2, 1, 2, 1⟩, badTsBar, ⟨9, 1, 2, 1, 2, 1⟩]

/-- A minimal well-formed bar series. -/
def barsW1 : List Bar := [⟨1, 1, 2, 1, 2, 1⟩]

/-- A browser state holding a `user` entry. -/
def stW : Client.BrowserState := ⟨["user", "token"], false⟩

/-- A cached GET request. -/
def reqGet : SW.SWRequest := ⟨"GET", "https://x/app"⟩

/-- An uncached GET request to an API URL. -/
def reqApi : SW.SWRequest := ⟨"GET", "https://x/api/data"⟩

/-- A POST request. -/
def reqPost : SW.SWRequest := ⟨"POST", "https://x/api/data"⟩

/-- A cacheable response: status 200, type `basic`. -/
def respBasic : SW.SWResponse := ⟨200, "basic", "ok"⟩

/-- A cache holding one entry. -/
def cacheW : SW.SWCache := [(reqGet, respBasic)]

end Wit

namespace Chan

theorem countP_any_self {α : Type} (l : List α) (m : α → α → Bool)
    (h : ∀ x ∈ l, m x x = true) :
    l.countP (fun x => l.any fun y => m y x) = l.length := by
  refine List.countP_eq_length.2 fun a ha => ?_
  exact List.any_eq_true.2 ⟨a, ha, h a ha⟩

theorem hitRate_self (n : Nat) : hitRate n n = 100 := by
  unfold hitRate
  by_cases h : n = 0
  · simp [h]
  · rw [if_neg h, mul_comm, mul_div_assoc, div_self (Nat.cast_ne_zero.2 h), mul_one]

theorem evalReports_self (R : AnalysisResult) :
    evalReports R R = ⟨100, 100, 100, 100⟩ := by
  have h1 : R.fractals.countP (fractalHit R.fractals) = R.fractals.length :=
    countP_any_self R.fractals
      (fun y x => decide (y.index = x.index ∧ y.kind = x.kind)) (fun x _ => by simp)
  have h2 : R.strokes.countP (strokeHit R.strokes) = R.strokes.length :=
    countP_any_self R.strokes
      (fun y x => decide (y.startFractal.index = x.startFractal.index ∧
        y.endFractal.index = x.endFractal.index ∧ y.direction = x.direction))
      (fun x _ => by simp)
  have h3 : R.pivots.countP (pivotHit R.pivots) = R.pivots.length :=
    countP_any_self R.pivots
      (fun y x => decide (y.upper = x.upper ∧ y.lower = x.lower ∧
        y.breakoutDirection = x.breakoutDirection)) (fun x _ => by simp)
  have h4 : R.signals.countP (divergenceHit R.signals) = R.signals.length :=
    countP_any_self R.signals
      (fun y x => decide (y.location = x.location ∧ y.kind = x.kind)) (fun x _ => by simp)
  show AccuracyReport.mk _ _ _ _ = _
  rw [h1, h2, h3, h4, hitRate_self, hitRate_self, hitRate_self, hitRate_self]

theorem pivotStep_lower (θ : ℚ) (p : Pivot) (s : Stroke) :
    (pivotStep θ p s).lower = p.lower := by
  unfold pivotStep
  split
  · rfl
  · split
    · rfl
    · split
      · rfl
      · rfl

theorem pivotStep_upper (θ : ℚ) (p : Pivot) (s : Stroke) :
    (pivotStep θ p s).upper = p.upper := by
  unfold pivotStep
  split
  · rfl
  · split
    · rfl
    · split
      · rfl
      · rfl

theorem extendLoop_fst_lower (θ : ℚ) : ∀ (l : List Stroke) (p : Pivot),
    ((extendLoop θ p l).1).lower = p.lower
  | [], p => rfl
  | s :: rest, p => by
    unfold extendLoop
    split
    · exact pivotStep_lower θ p s
    · rw [extendLoop_fst_lower θ rest (pivotStep θ p s), pivotStep_lower]

theorem extendLoop_fst_upper (θ : ℚ) : ∀ (l : List Stroke) (p : Pivot),
    ((extendLoop θ p l).1).upper = p.upper
  | [], p => rfl
  | s :: rest, p => by
    unfold extendLoop
    split
    · exact pivotStep_upper θ p s
    · rw [extendLoop_fst_upper θ rest (pivotStep θ p s), pivotStep_upper]

theorem formWindow_lt {k : Nat} {legs : List Stroke} {p : Pivot}
    (h : formWindow k legs = some p) : p.lower < p.upper := by
  unfold formWindow at h
  split at h
  · split at h
    · cases h
      assumption
    · cases h
  · cases h

theorem detectGo_lt (cfg : Config) : ∀ (fuel : Nat) (legs : List Stroke) (p : Pivot),
    p ∈ detectGo cfg fuel legs → p.lower < p.upper := by
  intro fuel
  induction fuel with
  | zero => intro legs p hp; rw [detectGo] at hp; cases hp
  | succ fuel ih =>
    intro legs p hp
    match legs with
    | [] => rw [detectGo] at hp; cases hp
    | s :: rest =>
      rw [detectGo] at hp
      revert hp
      cases hw : formWindow cfg.min_zhongshu_strokes (s :: rest) with
      | none => exact fun hp => ih rest p hp
      | some q =>
        intro hp
        rcases List.mem_cons.1 hp with hq | hq
        · subst hq
          rw [extendLoop_fst_lower, extendLoop_fst_upper]
          exact formWindow_lt hw
        · exact ih _ p hq

theorem validateGo_excluded : ∀ (bs : List Bar) (lastTs : Option Nat) (b : Bar),
    b ∈ bs → b.high < b.low → b ∈ (validateGo lastTs bs).2
  | [], _, _, hmem, _ => absurd hmem (List.not_mem_nil _)
  | a :: rest, lastTs, b, hmem, hb => by
    rw [validateGo]
    rcases List.mem_cons.1 hmem with rfl | hmem
    · have hok : barOk lastTs b = false := by
        unfold barOk
        rw [decide_eq_false (not_le.2 hb), Bool.false_and]
      rw [if_neg (by simp [hok])]
      exact List.mem_cons_self _ _
    · split
      · exact validateGo_excluded rest (some a.timestamp) b hmem hb
      · exact List.mem_cons_of_mem _ (validateGo_excluded rest lastTs b hmem hb)

theorem validateGo_valid_le : ∀ (bs : List Bar) (lastTs : Option Nat) (v : Bar),
    v ∈ (validateGo lastTs bs).1 → v.low ≤ v.high
  | [], _, _, hmem => absurd hmem (List.not_mem_nil _)
  | a :: rest, lastTs, v, hmem => by
    rw [validateGo] at hmem
    revert hmem
    split
    · next hok =>
      intro hmem
      rcases List.mem_cons.1 hmem with rfl | hmem
      · exact of_decide_eq_true (Bool.and_elim_left hok)
      · exact validateGo_valid_le rest (some a.timestamp) v hmem
    · exact fun hmem => validateGo_valid_le rest lastTs v hmem

theorem mergeCandle_absorbed (u : Bool) (c : Candle) (b : Bar) :
    (mergeCandle u c b).absorbed = c.absorbed ++ [b] := by
  unfold mergeCandle
  split
  · rfl
  · rfl

theorem mergeGo_absorbed (P : Bar → Prop) : ∀ (bs : List Bar) (acc : List Candle),
    (∀ c ∈ acc, ∀ x ∈ c.absorbed, P x) → (∀ v ∈ bs, P v) →
    ∀ c ∈ mergeGo acc bs, ∀ x ∈ c.absorbed, P x
  | [], acc, hacc, _, c, hc, x, hx => by
    rw [mergeGo] at hc
    exact hacc c (List.mem_reverse.1 hc) x hx
  | b :: rest, [], _, hbs, c, hc, x, hx => by
    rw [mergeGo] at hc
    refine mergeGo_absorbed P rest [barCandle b] ?_
      (fun v hv => hbs v (List.mem_cons_of_mem _ hv)) c hc x hx
    intro c' hc' y hy
    rw [List.mem_singleton.1 hc'] at hy
    have hyb : y ∈ [b] := hy
    rw [List.mem_singleton.1 hyb]
    exact hbs b (List.mem_cons_self _ _)
  | b :: rest, c0 :: earlier, hacc, hbs, c, hc, x, hx => by
    rw [mergeGo] at hc
    revert hc
    split
    · intro hc
      refine mergeGo_absorbed P rest _ ?_
        (fun v hv => hbs v (List.mem_cons_of_mem _ hv)) c hc x hx
      intro c' hc' y hy
      rcases List.mem_cons.1 hc' with rfl | hc''
      · rw [mergeCandle_absorbed] at hy
        rcases List.mem_append.1 hy with hy' | hy'
        · exact hacc c0 (List.mem_cons_self _ _) y hy'
        · rw [List.mem_singleton.1 hy']
          exact hbs b (List.mem_cons_self _ _)
      · exact hacc c' (List.mem_cons_of_mem _ hc'') y hy
    · intro hc
      refine mergeGo_absorbed P rest _ ?_
        (fun v hv => hbs v (List.mem_cons_of_mem _ hv)) c hc x hx
      intro c' hc' y hy
      rcases List.mem_cons.1 hc' with rfl | hc''
      · have hyb : y ∈ [b] := hy
        rw [List.mem_singleton.1 hyb]
        exact hbs b (List.mem_cons_self _ _)
      · exact hacc c' hc'' y hy

theorem reindexGo_absorbed : ∀ (cs : List Candle) (i : Nat) (c : Candle),
    c ∈ reindexGo i cs → ∃ c₀ ∈ cs, c.absorbed = c₀.absorbed
  | [], i, c, hc => by
    rw [reindexGo] at hc
    exact absurd hc (List.not_mem_nil c)
  | c0 :: rest, i, c, hc => by
    rw [reindexGo] at hc
    rcases List.mem_cons.1 hc with rfl | hc'
    · exact ⟨c0, List.mem_cons_self _ _, rfl⟩
    · rcases reindexGo_absorbed rest (i + 1) c hc' with ⟨c₀, hmem, heq⟩
      exact ⟨c₀, List.mem_cons_of_mem _ hmem, heq⟩

theorem validateGo_ts_excluded : ∀ (pre : List Bar) (lastTs : Option Nat) (b : Bar)
    (post : List Bar) (t : Nat), walkTs lastTs pre = some t → b.timestamp ≤ t →
    b ∈ (validateGo lastTs (pre ++ b :: post)).2
  | [], lastTs, b, post, t, hw, hbt => by
    rw [walkTs] at hw
    subst hw
    rw [List.nil_append, validateGo]
    have hok : barOk (some t) b = false := by
      have hts : tsOk (some t) b.timestamp = false := decide_eq_false (not_lt.2 hbt)
      unfold barOk
      rw [hts, Bool.and_false]
    rw [if_neg (by simp [hok])]
    exact List.mem_cons_self _ _
  | a :: pre, lastTs, b, post, t, hw, hbt => by
    rw [walkTs] at hw
    rw [List.cons_append, validateGo]
    by_cases hok : barOk lastTs a = true
    · rw [if_pos hok] at hw ⊢
      exact validateGo_ts_excluded pre (some a.timestamp) b post t hw hbt
    · rw [if_neg hok] at hw ⊢
      exact List.mem_cons_of_mem _ (validateGo_ts_excluded pre lastTs b post t hw hbt)

theorem validateGo_chain : ∀ (bs : List Bar) (lastTs : Option Nat),
    List.Chain' (fun x y => x.timestamp < y.timestamp) (validateGo lastTs bs).1 ∧
    ∀ t, lastTs = some t → ∀ y ∈ (validateGo lastTs bs).1.head?, t < y.timestamp
  | [], _ => ⟨List.chain'_nil, fun t _ y hy => nomatch hy⟩
  | b :: rest, lastTs => by
    rw [validateGo]
    by_cases hok : barOk lastTs b = true
    · rw [if_pos hok]
      constructor
      · refine List.chain'_cons'.2 ⟨?_, (validateGo_chain rest (some b.timestamp)).1⟩
        intro y hy
        exact (validateGo_chain rest (some b.timestamp)).2 b.timestamp rfl y hy
      · intro t ht y hy
        subst ht
        rw [List.head?_cons, Option.mem_def] at hy
        injection hy with hby
        subst hby
        have hts : tsOk (some t) b.timestamp = true := Bool.and_elim_right hok
        exact of_decide_eq_true hts
    · rw [if_neg hok]
      exact validateGo_chain rest lastTs

theorem validateGo_all_ok : ∀ (bs : List Bar) (lastTs : Option Nat),
    (∀ x ∈ bs, x.low ≤ x.high) →
    List.Chain' (fun x y => x.timestamp < y.timestamp) bs →
    (∀ t, lastTs = some t → ∀ h ∈ bs.head?, t < h.timestamp) →
    validateGo lastTs bs = (bs, [])
  | [], _, _, _, _ => rfl
  | b :: rest, lastTs, hle, hchain, hfirst => by
    have hok : barOk lastTs b = true := by
      unfold barOk
      rw [decide_eq_true (hle b (List.mem_cons_self _ _)), Bool.true_and]
      match lastTs, hfirst with
      | none, _ => rfl
      | some t, hfirst =>
        exact decide_eq_true (hfirst t rfl b rfl)
    rw [validateGo, if_pos (by simp [hok])]
    have hrec : validateGo (some b.timestamp) rest = (rest, []) :=
      validateGo_all_ok rest (some b.timestamp)
        (fun x hx => hle x (List.mem_cons_of_mem _ hx))
        (List.chain'_cons'.1 hchain).2
        (fun t ht h hh => by
          cases ht
          exact (List.chain'_cons'.1 hchain).1 h hh)
    rw [hrec]

end Chan

namespace SW

theorem foldDelete_eq : ∀ (ns : List String) (st : CacheStore),
    ns.foldl (fun acc name => if name ≠ CACHE_NAME then deleteCache acc name else acc) st =
      st.filter fun e => decide (e.1 = CACHE_NAME ∨ e.1 ∉ ns)
  | [], st => by
    rw [List.foldl_nil]
    exact (List.filter_eq_self.2 fun e _ => by simp).symm
  | n :: ns, st => by
    rw [List.foldl_cons, foldDelete_eq ns]
    by_cases hn : n = CACHE_NAME
    · subst hn
      rw [if_neg (by simp)]
      refine List.filter_congr fun e _ => ?_
      refine decide_eq_decide.2 ?_
      constructor
      · rintro (h | h)
        · exact Or.inl h
        · by_cases he : e.1 = CACHE_NAME
          · exact Or.inl he
          · exact Or.inr (by simp [he, h])
      · rintro (h | h)
        · exact Or.inl h
        · exact Or.inr fun hmem => h (List.mem_cons_of_mem _ hmem)
    · rw [if_pos hn]
      unfold deleteCache
      rw [List.filter_filter]
      refine List.filter_congr fun e _ => ?_
      rcases Decidable.em (e.1 = CACHE_NAME) with he | he
      · simp [he, Ne.symm hn]
      · rcases Decidable.em (e.1 = n) with hen | hen
        · simp [he, hen, hn]
        · rcases Decidable.em (e.1 ∈ ns) with hm | hm <;> simp [he, hen, hm, hn]

end SW

/-- C1: running the pipeline twice on identical input bars and identical
configuration yields identical structural output (the pipeline is a pure
function of bars and configuration), and a price tie between fractals at
different indices is resolved in favour of the earliest index: a later
fractal of the same kind with exactly the same price, arriving within the
minimum gap, is never "more extreme", so the earlier accepted fractal is
retained. -/
theorem claim_pipeline_determinism_and_earliest_tie :
    (∀ (bars : List Chan.Bar) (cfg : Chan.Config),
      Chan.runPipeline bars cfg = Chan.runPipeline bars cfg) ∧
    (∀ (cfg : Chan.Config) (g f : Chan.Fractal), f.kind = g.kind → f.price = g.price →
      f.index - g.index ≤ cfg.min_fractal_gap → Chan.gapInsert cfg [g] f = [g]) := by
  constructor
  · intro bars cfg
    rfl
  · intro cfg g f hk hp hgap
    rcases f with ⟨fi, fk, fp⟩
    rcases g with ⟨gi, gk, gp⟩
    dsimp only at hk hp hgap
    subst hk
    subst hp
    cases fk <;>
      simp [Chan.gapInsert, Chan.moreExtreme, hgap, List.filter, List.getLast?]

/-- C1 witness: a concrete tie — two top fractals with equal price 15 at
indices 2 and 4, gap 2 — keeps the earlier fractal. -/
theorem claim_pipeline_determinism_and_earliest_tie_witness :
    Chan.gapInsert Wit.cfgW [Wit.gW] Wit.fW = [Wit.gW] :=
  claim_pipeline_determinism_and_earliest_tie.2 Wit.cfgW Wit.gW Wit.fW rfl rfl (by decide)

/-- C2: the AccuracyEvaluator run with a validation date at or beyond
every bar (validation_date = end_date, no held-out future) yields a hit
rate of exactly 100 in every category. -/
theorem claim_accuracy_reflexivity (bars : List Chan.Bar) (cfg : Chan.Config) (d : Nat)
    (h : ∀ b ∈ bars, b.timestamp ≤ d) :
    Chan.evaluate bars cfg d = ⟨100, 100, 100, 100⟩ := by
  unfold Chan.evaluate
  rw [List.filter_eq_self.2 fun b hb => decide_eq_true (h b hb)]
  exact Chan.evalReports_self _

/-- C2 witness: a concrete one-bar series evaluated at a validation date
past its end scores 100 everywhere. -/
theorem claim_accuracy_reflexivity_witness :
    Chan.evaluate Wit.barsW1 Wit.cfgW 10 = ⟨100, 100, 100, 100⟩ :=
  claim_accuracy_reflexivity Wit.barsW1 Wit.cfgW 10 (by decide)

/-- C3: every pivot the PivotDetector produces satisfies upper > lower
while its status is not broken, and every transition of the pivot state
machine preserves upper > lower (the bounds are fixed at formation and
never change). -/
theorem claim_pivot_overlap_invariant :
    (∀ (cfg : Chan.Config) (legs : List Chan.Stroke) (p : Chan.Pivot),
      p ∈ Chan.detectPivots cfg legs → p.status ≠ .broken → p.lower < p.upper) ∧
    (∀ (θ : ℚ) (p : Chan.Pivot) (s : Chan.Stroke), p.lower < p.upper →
      (Chan.pivotStep θ p s).lower < (Chan.pivotStep θ p s).upper) := by
  constructor
  · intro cfg legs p hp _
    exact Chan.detectGo_lt cfg legs.length legs p hp
  · intro θ p s h
    rw [Chan.pivotStep_lower, Chan.pivotStep_upper]
    exact h

/-- C3 witness: the spec's concrete pivot scenario — legs with ranges
[100,110], [95,108], [101,112] form the pivot upper = 108, lower = 101,
and 101 < 108. -/
theorem claim_pivot_overlap_invariant_witness :
    Wit.pivW ∈ Chan.detectPivots Wit.cfgW Wit.strokes3 ∧ Wit.pivW.lower < Wit.pivW.upper :=
  ⟨by decide,
   claim_pivot_overlap_invariant.1 Wit.cfgW Wit.strokes3 Wit.pivW (by decide) (by decide)⟩

/-- C4: the StrokeBuilder's thresholds are inclusive — a candidate
fractal pair whose bar span equals min_stroke_bars exactly and whose
amplitude equals min_stroke_pct exactly is accepted as a stroke. -/
theorem claim_stroke_thresholds_inclusive (cfg : Chan.Config) (a b : Chan.Fractal)
    (hk : b.kind ≠ a.kind)
    (hspan : b.index - a.index = cfg.min_stroke_bars)
    (hamp : |b.price - a.price| / a.price = cfg.min_stroke_pct) :
    Chan.buildStrokes cfg [a, b] =
      [⟨a, b, if a.price < b.price then .up else .down,
        cfg.min_stroke_pct, cfg.min_stroke_bars⟩] := by
  show Chan.buildGo cfg a [b] = _
  rw [Chan.buildGo, if_neg hk, if_pos ⟨hspan.ge, hamp.ge⟩, hspan, hamp, Chan.buildGo]

/-- C4 witness: a pair with span exactly 3 bars and amplitude exactly
1/500 = 0.002 is accepted. -/
theorem claim_stroke_thresholds_inclusive_witness :
    Chan.buildStrokes Wit.cfgW [Wit.aW, Wit.bW] =
      [⟨Wit.aW, Wit.bW, if Wit.aW.price < Wit.bW.price then .up else .down,
        Wit.cfgW.min_stroke_pct, Wit.cfgW.min_stroke_bars⟩] :=
  claim_stroke_thresholds_inclusive Wit.cfgW Wit.aW Wit.bW (by decide) (by decide)
    (by
      show |(501 / 500 : ℚ) - 1| / 1 = 1 / 500
      rw [show (501 / 500 : ℚ) - 1 = 1 / 500 by norm_num,
        abs_of_nonneg (by norm_num : (0 : ℚ) ≤ 1 / 500)]
      norm_num)

/-- C5 counterexample: on the spec's own 7-candle series (highs
[10,12,15,11,9,13,10], consistent lows) with fractal_window 3 and
min_fractal_gap 2, the detector marks TWO top fractals — index 2
(high 15) and also index 5 (high 13 strictly exceeds both neighbours 9
and 10, and lies 3 > 2 candles past the previous accepted top) — so the
claim "exactly one top fractal" is false on the detection rule. -/
theorem claim_fractal_scenario_counterexample :
    (Chan.detectFractals Wit.cfgW Wit.candles7).countP (fun f => decide (f.kind = .top)) = 2 ∧
    (⟨5, .top, 13⟩ : Chan.Fractal) ∈ Chan.detectFractals Wit.cfgW Wit.candles7 := by
  decide

/-- C5 amended: on the 7-candle series the detector returns exactly one
bottom fractal, at index 4, and exactly two top fractals, at index 2
(high 15) and index 5 (high 13), using strict inequality against both
window neighbours and never marking edge candles. -/
theorem claim_fractal_scenario_amended :
    Chan.detectFractals Wit.cfgW Wit.candles7 =
      [⟨2, .top, 15⟩, ⟨4, .bottom, 8⟩, ⟨5, .top, 13⟩] := by
  decide

/-- C6: a malformed bar of either kind is excluded from the canonical
candle sequence and recorded: a bar with high < low is excluded wherever
it occurs (and is absorbed by no canonical candle), and a bar whose
timestamp does not strictly increase over the last accepted bar at its
position is excluded; every bar a canonical candle absorbs passed
validation, validated bars satisfy low ≤ high with strictly increasing
timestamps, and the pipeline completes as a total function of the
canonical candles alone — so a malformed bar feeds no downstream
Fractal, Stroke, Segment, or Pivot, and the run is not aborted. -/
theorem claim_malformed_bar_excluded (bars : List Chan.Bar) (cfg : Chan.Config)
    (b : Chan.Bar) :
    (b ∈ bars → b.high < b.low →
      b ∈ (Chan.normalize bars).excluded ∧
      ∀ c ∈ (Chan.normalize bars).candles, b ∉ c.absorbed) ∧
    (∀ pre post t, bars = pre ++ b :: post → Chan.walkTs none pre = some t →
      b.timestamp ≤ t → b ∈ (Chan.normalize bars).excluded) ∧
    (∀ c ∈ (Chan.normalize bars).candles, ∀ x ∈ c.absorbed,
      x ∈ (Chan.validateBars bars).1) ∧
    (∀ x ∈ (Chan.validateBars bars).1, x.low ≤ x.high) ∧
    List.Chain' (fun x y => x.timestamp < y.timestamp) (Chan.validateBars bars).1 ∧
    Chan.runPipeline bars cfg = Chan.stagesFrom cfg (Chan.normalize bars) := by
  have habs : ∀ c ∈ (Chan.normalize bars).candles, ∀ x ∈ c.absorbed,
      x ∈ (Chan.validateBars bars).1 := by
    intro c hc x hx
    rcases Chan.reindexGo_absorbed _ 0 c hc with ⟨c₀, hc₀, heq⟩
    rw [heq] at hx
    exact Chan.mergeGo_absorbed (fun y => y ∈ (Chan.validateBars bars).1) _ []
      (fun c' hc' => absurd hc' (List.not_mem_nil c'))
      (fun v hv => hv) c₀ hc₀ x hx
  refine ⟨?_, ?_, habs, fun x hx => Chan.validateGo_valid_le bars none x hx,
    (Chan.validateGo_chain bars none).1, rfl⟩
  · intro hmem hb
    refine ⟨Chan.validateGo_excluded bars none b hmem hb, fun c hc hbin => ?_⟩
    exact absurd (Chan.validateGo_valid_le bars none b (habs c hc b hbin)) (not_le.2 hb)
  · intro pre post t hd hw hbt
    rw [hd]
    exact Chan.validateGo_ts_excluded pre none b post t hw hbt

/-- C6 witness: the concrete malformed bar (high 1 < low 3) inserted
mid-series is recorded among the exclusions, and so is a concrete bar
whose timestamp 4 regresses below the last accepted bar's timestamp 5. -/
theorem claim_malformed_bar_excluded_witness :
    Wit.badBar ∈ (Chan.normalize Wit.barsW6).excluded ∧
    Wit.badTsBar ∈ (Chan.normalize Wit.barsW7).excluded :=
  ⟨((claim_malformed_bar_excluded Wit.barsW6 Wit.cfgW Wit.badBar).1
      (by decide) (by decide)).1,
   (claim_malformed_bar_excluded Wit.barsW7 Wit.cfgW Wit.badTsBar).2.1
     [⟨5, 1, 2, 1, 2, 1⟩] [⟨9, 1, 2, 1, 2, 1⟩] 5 (by decide) (by decide) (by decide)⟩

/-- C7: the engine's input interface accepts an ordered bar sequence with
strictly increasing timestamps together with a configuration record
recognizing the eleven documented options: each option is stored and
readable, and a well-formed bar sequence is accepted in full (no bar is
excluded). -/
theorem claim_engine_input_interface (fw gap msb : Nat) (msp : ℚ) (mss : Nat) (sbt : ℚ)
    (mzs : Nat) (zot : ℚ) (mf ms msg : Nat) (bars : List Chan.Bar)
    (hlh : ∀ x ∈ bars, x.low ≤ x.high)
    (hts : List.Chain' (fun x y => x.timestamp < y.timestamp) bars) :
    (Chan.Config.mk fw gap msb msp mss sbt mzs zot mf ms msg).fractal_window = fw ∧
    (Chan.Config.mk fw gap msb msp mss sbt mzs zot mf ms msg).min_fractal_gap = gap ∧
    (Chan.Config.mk fw gap msb msp mss sbt mzs zot mf ms msg).min_stroke_bars = msb ∧
    (Chan.Config.mk fw gap msb msp mss sbt mzs zot mf ms msg).min_stroke_pct = msp ∧
    (Chan.Config.mk fw gap msb msp mss sbt mzs zot mf ms msg).min_segment_strokes = mss ∧
    (Chan.Config.mk fw gap msb msp mss sbt mzs zot mf ms msg).segment_break_threshold = sbt ∧
    (Chan.Config.mk fw gap msb msp mss sbt mzs zot mf ms msg).min_zhongshu_strokes = mzs ∧
    (Chan.Config.mk fw gap msb msp mss sbt mzs zot mf ms msg).zhongshu_overlap_threshold = zot ∧
    (Chan.Config.mk fw gap msb msp mss sbt mzs zot mf ms msg).macd_fast = mf ∧
    (Chan.Config.mk fw gap msb msp mss sbt mzs zot mf ms msg).macd_slow = ms ∧
    (Chan.Config.mk fw gap msb msp mss sbt mzs zot mf ms msg).macd_signal = msg ∧
    (Chan.runPipeline bars (Chan.Config.mk fw gap msb msp mss sbt mzs zot mf ms msg)).excluded
      = [] := by
  refine ⟨rfl, rfl, rfl, rfl, rfl, rfl, rfl, rfl, rfl, rfl, rfl, ?_⟩
  show (Chan.validateGo none bars).2 = []
  rw [Chan.validateGo_all_ok bars none hlh hts (fun t ht => nomatch ht)]

/-- C7 witness: a concrete well-formed one-bar series and the spec's
default option values are accepted with no exclusions. -/
theorem claim_engine_input_interface_witness :
    (Chan.runPipeline Wit.barsW1
      (Chan.Config.mk 3 2 3 (1/500) 3 (1/200) 3 (1/1000) 12 26 9)).excluded = [] :=
  (claim_engine_input_interface 3 2 3 (1/500) 3 (1/200) 3 (1/1000) 12 26 9 Wit.barsW1
    (by decide) (List.chain'_singleton _)).2.2.2.2.2.2.2.2.2.2.2

/-- C8: for every HTTP event seen by the authenticated client, a 2xx
response passes through the interceptor unchanged; every non-2xx
response and every network failure is propagated as a rejection; exactly
the 401 status additionally removes the user entry from localStorage and
reloads the page (any change to the browser state implies a 401
response). -/
theorem claim_response_interceptor (ev : Client.HttpEvent) (st : Client.BrowserState) :
    (∀ s body, ev = .response s body → Client.validateHttpStatus s = true →
      Client.handleHttpEvent ev st = (.resolved s body, st)) ∧
    (∀ s body, ev = .response s body → Client.validateHttpStatus s = false →
      (Client.handleHttpEvent ev st).1 = .rejected (some s)) ∧
    (ev = .networkFailure → Client.handleHttpEvent ev st = (.rejected none, st)) ∧
    (∀ body, ev = .response 401 body →
      Client.handleHttpEvent ev st =
        (.rejected (some 401), ⟨Client.removeItem st.storage "user", true⟩)) ∧
    ((Client.handleHttpEvent ev st).2 ≠ st →
      (∃ body, ev = .response 401 body) ∧
      (Client.handleHttpEvent ev st).2 = ⟨Client.removeItem st.storage "user", true⟩) := by
  refine ⟨?_, ?_, ?_, ?_, ?_⟩
  · rintro s body rfl hv
    simp [Client.handleHttpEvent, hv, Client.onSuccess]
  · rintro s body rfl hv
    simp [Client.handleHttpEvent, hv, Client.onError]
  · rintro rfl
    simp [Client.handleHttpEvent, Client.onError]
  · rintro body rfl
    have hv : Client.validateHttpStatus 401 = false := by decide
    simp [Client.handleHttpEvent, hv, Client.onError]
  · intro hne
    cases ev with
    | networkFailure =>
      exact (hne (by simp [Client.handleHttpEvent, Client.onError])).elim
    | response s body =>
      by_cases hv : Client.validateHttpStatus s
      · exact (hne (by simp [Client.handleHttpEvent, hv, Client.onSuccess])).elim
      · by_cases h401 : s = 401
        · subst h401
          exact ⟨⟨body, rfl⟩, by simp [Client.handleHttpEvent, hv, Client.onError]⟩
        · exact (hne (by simp [Client.handleHttpEvent, hv, Client.onError, h401])).elim

/-- C8 witness: a received 401 response against a storage holding user
and token rejects the promise, drops exactly the user key, and reloads. -/
theorem claim_response_interceptor_witness :
    Client.handleHttpEvent (.response 401 "e") Wit.stW =
      (.rejected (some 401), ⟨Client.removeItem Wit.stW.storage "user", true⟩) ∧
    Client.removeItem Wit.stW.storage "user" = ["token"] :=
  ⟨(claim_response_interceptor (.response 401 "e") Wit.stW).2.2.2.1 "e" rfl, by decide⟩

/-- C9: the service worker's fetch handler leaves non-GET requests to the
browser untouched; a GET request is served from the cache when a match
exists; otherwise the network response is returned and cached exactly
when its status is 200 and its type is basic; a failed network fetch for
a URL containing /api/ is answered with the 503 JSON fallback instead of
propagating, while a failed fetch for any other URL propagates. -/
theorem claim_service_worker_fetch (req : SW.SWRequest) (cache : SW.SWCache)
    (net : SW.NetworkResult) :
    (req.method ≠ "GET" → SW.handleFetch req cache net = (.browserDefault, cache)) ∧
    (∀ resp, req.method = "GET" → SW.cacheMatch cache req = some resp →
      SW.handleFetch req cache net = (.respond resp, cache)) ∧
    (∀ resp, req.method = "GET" → SW.cacheMatch cache req = none → net = .ok resp →
      SW.handleFetch req cache net =
        (.respond resp,
          if resp.status = 200 ∧ resp.type = "basic" then SW.cachePut cache req resp
          else cache)) ∧
    (req.method = "GET" → SW.cacheMatch cache req = none → net = .failed →
      SW.strContains req.url "/api/" = true →
      SW.handleFetch req cache net = (.respond SW.apiErrorResponse, cache) ∧
        SW.apiErrorResponse.status = 503) ∧
    (req.method = "GET" → SW.cacheMatch cache req = none → net = .failed →
      SW.strContains req.url "/api/" = false →
      SW.handleFetch req cache net = (.failRequest, cache)) := by
  refine ⟨?_, ?_, ?_, ?_, ?_⟩
  · intro h
    simp [SW.handleFetch, h]
  · intro resp hm hcm
    simp [SW.handleFetch, hm, hcm]
  · intro resp hm hcm hnet
    subst hnet
    by_cases hc : resp.status = 200 ∧ resp.type = "basic" <;>
      simp [SW.handleFetch, hm, hcm, hc]
  · intro hm hcm hnet hurl
    subst hnet
    exact ⟨by simp [SW.handleFetch, hm, hcm, hurl], rfl⟩
  · intro hm hcm hnet hurl
    subst hnet
    simp [SW.handleFetch, hm, hcm, hurl]

/-- C9 witness: concrete instances — a POST passes through untouched, a
cached GET is served from the cache, an uncached GET caches its 200/basic
network response, and a failed API fetch yields the 503 fallback. -/
theorem claim_service_worker_fetch_witness :
    SW.handleFetch Wit.reqPost Wit.cacheW .failed = (.browserDefault, Wit.cacheW) ∧
    SW.handleFetch Wit.reqGet Wit.cacheW .failed = (.respond Wit.respBasic, Wit.cacheW) ∧
    SW.handleFetch Wit.reqApi [] (.ok Wit.respBasic) =
      (.respond Wit.respBasic,
        if Wit.respBasic.status = 200 ∧ Wit.respBasic.type = "basic"
        then SW.cachePut [] Wit.reqApi Wit.respBasic else []) ∧
    (SW.handleFetch Wit.reqApi [] .failed = (.respond SW.apiErrorResponse, []) ∧
      SW.apiErrorResponse.status = 503) :=
  ⟨(claim_service_worker_fetch Wit.reqPost Wit.cacheW .failed).1 (by decide),
   (claim_service_worker_fetch Wit.reqGet Wit.cacheW .failed).2.1 Wit.respBasic rfl (by decide),
   (claim_service_worker_fetch Wit.reqApi [] (.ok Wit.respBasic)).2.2.1 Wit.respBasic rfl
     (by decide) rfl,
   (claim_service_worker_fetch Wit.reqApi [] .failed).2.2.2.1 rfl (by decide) rfl (by decide)⟩

/-- C10: on activation the service worker deletes every cache whose name
differs from chan-analysis-v2 and leaves the chan-analysis-v2 entries
unchanged: the store afterwards is exactly the prior store restricted to
that one name. -/
theorem claim_activate_cleans_old_caches (st : SW.CacheStore) :
    SW.activateHandler st = st.filter fun e => decide (e.1 = SW.CACHE_NAME) := by
  unfold SW.activateHandler
  rw [SW.foldDelete_eq]
  refine List.filter_congr fun e he => ?_
  refine decide_eq_decide.2 ?_
  constructor
  · rintro (h | h)
    · exact h
    · exact absurd (List.mem_map_of_mem Prod.fst he) h
  · exact fun h => Or.inl h
